import Mathlib

/-!
# Verification of the gopacket Endpoint/Flow model and ICMPv6 option decoding

Shallow embedding of the `Endpoint`/`Flow` addressing model of `flows.go`
and of the ICMPv6 option decoder of `layers/icmp6msg.go`.

Go bytes are modelled as `Nat` values; well-formed values (the ones the Go
type system produces) have every byte `< 256`.  Fixed `[16]byte` arrays are
modelled as 16-element lists, with `copy` modelled by zero padding.
Go `uint64` arithmetic that can wrap carries an explicit `% 2 ^ 64`;
the XOR/shift combinations used by the hash loops never exceed `2 ^ 64`
for byte-valued inputs, so they are exact.  A Go `panic` is modelled as an
explicit result constructor, distinct from an error return.
-/

namespace Gopacket

/-- `MaxEndpointSize` from flows.go: the maximum size in bytes of an endpoint
address. -/
def MaxEndpointSize : Nat := 16

/-- Go's `copy(dst[:], raw)` into a zeroed, fixed `[16]byte` array: the raw
bytes followed by zero padding up to 16 cells. -/
def padTo16 (raw : List Nat) : List Nat :=
  raw ++ List.replicate (MaxEndpointSize - raw.length) 0

/-- `Endpoint` from flows.go: `typ EndpointType; len int; raw [16]byte`.
`EndpointType` is a Go `int64`, modelled as `Int`. -/
structure Endpoint where
  typ : Int
  len : Nat
  raw : List Nat
deriving DecidableEq

/-- Well-formedness of an `Endpoint` as the Go representation guarantees it:
the fixed array has 16 cells, at most 16 of them are meaningful, and every
cell holds a byte. -/
def Endpoint.WF (a : Endpoint) : Prop :=
  a.len ≤ MaxEndpointSize ∧ a.raw.length = MaxEndpointSize ∧ ∀ b ∈ a.raw, b < 256

instance (a : Endpoint) : Decidable a.WF := by
  unfold Endpoint.WF; infer_instance

/-- `Endpoint.Raw` from flows.go: `return a.raw[:a.len]`. -/
def Endpoint.Raw (a : Endpoint) : List Nat :=
  a.raw.take a.len

/-- Go's `bytes.Compare`: lexicographic three-way comparison of byte slices,
returning -1, 0 or 1. -/
def bytesCompare : List Nat → List Nat → Int
  | [], [] => 0
  | [], _ :: _ => -1
  | _ :: _, [] => 1
  | a :: as, b :: bs => if a < b then -1 else if b < a then 1 else bytesCompare as bs

/-- `Endpoint.LessThan` from flows.go:
`a.typ < b.typ || (a.typ == b.typ && bytes.Compare(a.raw[:a.len], b.raw[:b.len]) < 0)`. -/
def Endpoint.LessThan (a b : Endpoint) : Bool :=
  decide (a.typ < b.typ) ||
    (decide (a.typ = b.typ) && decide (bytesCompare (a.raw.take a.len) (b.raw.take b.len) < 0))

/-- `Endpoint.FastHash` from flows.go:
`for i := 0; i < a.len; i++ { h ^= uint64(a.raw[i]) << (8 * (uint(i) % 8)) }`.
For byte-valued cells every term is below `2 ^ 64`, so the `uint64`
arithmetic is exact and no wrap-around is needed. -/
def Endpoint.FastHash (a : Endpoint) : Nat :=
  (List.range a.len).foldl (fun h i => h ^^^ (a.raw.getD i 0 <<< (8 * (i % 8)))) 0

/-- Outcome of a Go function that either returns a value or panics. -/
inductive ConstructResult (α : Type) where
  | ok (val : α)
  | panicked (msg : String)
deriving DecidableEq

/-- `NewEndpoint` from flows.go: records the length, panics when it exceeds
`MaxEndpointSize`, and otherwise copies the raw bytes into the fixed array. -/
def NewEndpoint (typ : Int) (raw : List Nat) : ConstructResult Endpoint :=
  if raw.length > MaxEndpointSize then
    .panicked "raw byte length greater than MaxEndpointSize"
  else
    .ok { typ := typ, len := raw.length, raw := padTo16 raw }

/-- `Flow` from flows.go: `typ EndpointType; slen, dlen int; src, dst [16]byte`. -/
structure Flow where
  typ : Int
  slen : Nat
  dlen : Nat
  src : List Nat
  dst : List Nat
deriving DecidableEq

/-- `FlowFromEndpoints` from flows.go: errors when the endpoint types differ,
otherwise pastes the two endpoints together.  The Go error value
(`fmt.Errorf("Mismatched endpoint types: %v->%v", ...)`) is modelled by a
fixed message string. -/
def FlowFromEndpoints (src dst : Endpoint) : Except String Flow :=
  if src.typ ≠ dst.typ then
    .error "Mismatched endpoint types"
  else
    .ok { typ := src.typ, slen := src.len, dlen := dst.len, src := src.raw, dst := dst.raw }

/-- `Flow.FastHash` from flows.go.  Note that the source iterates `f.slen`
times for BOTH endpoints and indexes both arrays at `f.slen - 1 - i`:

```
for i := 0; i < f.slen; i++ {
    a ^= uint64(f.src[f.slen-1-i]) << (16 * (uint(i) % 4))
    b ^= uint64(f.dst[f.slen-1-i]) << (16 * (uint(i) % 4))
}
if a > b { a += (b << 8); return }
a = b + (a << 8)
```

The final combination uses wrapping `uint64` addition, hence the `% 2 ^ 64`. -/
def Flow.FastHash (f : Flow) : Nat :=
  let a := (List.range f.slen).foldl
    (fun h i => h ^^^ (f.src.getD (f.slen - 1 - i) 0 <<< (16 * (i % 4)))) 0
  let b := (List.range f.slen).foldl
    (fun h i => h ^^^ (f.dst.getD (f.slen - 1 - i) 0 <<< (16 * (i % 4)))) 0
  if b < a then (a + (b <<< 8)) % 2 ^ 64 else (b + (a <<< 8)) % 2 ^ 64

/-- `Flow.Reverse` from flows.go: `return Flow{f.typ, f.dlen, f.slen, f.dst, f.src}`. -/
def Flow.Reverse (f : Flow) : Flow :=
  { typ := f.typ, slen := f.dlen, dlen := f.slen, src := f.dst, dst := f.src }

/-- `NewFlow` from flows.go: records both lengths, panics when either exceeds
`MaxEndpointSize`, and otherwise copies both buffers into the fixed arrays. -/
def NewFlow (t : Int) (src dst : List Nat) : ConstructResult Flow :=
  if src.length > MaxEndpointSize ∨ dst.length > MaxEndpointSize then
    .panicked "flow raw byte length greater than MaxEndpointSize"
  else
    .ok { typ := t, slen := src.length, dlen := dst.length,
          src := padTo16 src, dst := padTo16 dst }

/-- `Endpoint.Raw` of a freshly constructed endpoint: taking `raw.length`
elements of the zero-padded array gives back the original bytes. -/
theorem raw_padTo16 (typ : Int) (raw : List Nat) :
    Endpoint.Raw { typ := typ, len := raw.length, raw := padTo16 raw } = raw := by
  unfold Endpoint.Raw padTo16
  simp [List.take_append_of_le_length (Nat.le_refl raw.length)]

/-- C4: For every flow `f`, `Reverse` swaps the source and destination buffers
together with their lengths and leaves the type unchanged, and
`f.Reverse().Reverse() = f`. -/
theorem flow_reverse_involutive (f : Flow) :
    f.Reverse.typ = f.typ ∧ f.Reverse.src = f.dst ∧ f.Reverse.dst = f.src ∧
      f.Reverse.slen = f.dlen ∧ f.Reverse.dlen = f.slen ∧ f.Reverse.Reverse = f := by
  cases f
  simp [Flow.Reverse]

/-- C5 (counterexample): on a 17-byte raw address, `NewEndpoint` panics;
it does not return a recoverable error value to the caller. -/
theorem newEndpoint_oversized_panics_cex :
    NewEndpoint 0 (List.replicate 17 0) =
      ConstructResult.panicked "raw byte length greater than MaxEndpointSize" := by
  decide

/-- C5 (amended): for every raw byte slice of length greater than 16,
endpoint construction fails by panicking (never silently truncating), rather
than returning a recoverable error value. -/
theorem newEndpoint_oversized_panics (typ : Int) (raw : List Nat)
    (h : raw.length > 16) :
    NewEndpoint typ raw =
      ConstructResult.panicked "raw byte length greater than MaxEndpointSize" := by
  unfold NewEndpoint MaxEndpointSize
  simp [h]

theorem newEndpoint_oversized_panics_witness :
    NewEndpoint 7 (List.replicate 17 3) =
      ConstructResult.panicked "raw byte length greater than MaxEndpointSize" :=
  newEndpoint_oversized_panics 7 (List.replicate 17 3) (by decide)

/-- C6: for every endpoint type and raw byte slice of length at most 16,
`NewEndpoint` succeeds and the constructed endpoint's `Raw` returns exactly
the original bytes. -/
theorem newEndpoint_raw_roundtrip (typ : Int) (raw : List Nat)
    (h : raw.length ≤ 16) :
    NewEndpoint typ raw = ConstructResult.ok { typ := typ, len := raw.length, raw := padTo16 raw } ∧
      Endpoint.Raw { typ := typ, len := raw.length, raw := padTo16 raw } = raw := by
  constructor
  · unfold NewEndpoint MaxEndpointSize
    simp [Nat.not_lt.mpr h]
  · exact raw_padTo16 typ raw

theorem newEndpoint_raw_roundtrip_witness :
    NewEndpoint 5 [1, 2, 3] = ConstructResult.ok { typ := 5, len := 3, raw := padTo16 [1, 2, 3] } ∧
      Endpoint.Raw { typ := 5, len := 3, raw := padTo16 [1, 2, 3] } = [1, 2, 3] :=
  newEndpoint_raw_roundtrip 5 [1, 2, 3] (by decide)

/-- C7: `FlowFromEndpoints a b` returns the type-mismatch error exactly when
the endpoint types differ; with equal types it succeeds, with the shared type
and the src/dst data taken from `a` and `b` respectively. -/
theorem flowFromEndpoints_type_check (a b : Endpoint) :
    (FlowFromEndpoints a b = Except.error "Mismatched endpoint types" ↔ a.typ ≠ b.typ) ∧
      (a.typ = b.typ →
        FlowFromEndpoints a b =
          Except.ok { typ := a.typ, slen := a.len, dlen := b.len, src := a.raw, dst := b.raw }) := by
  unfold FlowFromEndpoints
  by_cases h : a.typ = b.typ <;> simp [h]

theorem flowFromEndpoints_type_check_witness :
    FlowFromEndpoints ⟨1, 0, padTo16 []⟩ ⟨2, 0, padTo16 []⟩ =
        Except.error "Mismatched endpoint types" ∧
      FlowFromEndpoints ⟨1, 1, padTo16 [9]⟩ ⟨1, 2, padTo16 [4, 5]⟩ =
        Except.ok { typ := 1, slen := 1, dlen := 2,
                    src := padTo16 [9], dst := padTo16 [4, 5] } :=
  ⟨(flowFromEndpoints_type_check ⟨1, 0, padTo16 []⟩ ⟨2, 0, padTo16 []⟩).1.mpr (by decide),
   (flowFromEndpoints_type_check ⟨1, 1, padTo16 [9]⟩ ⟨1, 2, padTo16 [4, 5]⟩).2 rfl⟩

theorem bytesCompare_eq_zero_iff : ∀ x y : List Nat, bytesCompare x y = 0 ↔ x = y
  | [], [] => by simp [bytesCompare]
  | [], _ :: _ => by simp [bytesCompare]
  | _ :: _, [] => by simp [bytesCompare]
  | a :: as, b :: bs => by
    simp only [bytesCompare]
    split_ifs with h1 h2
    · constructor
      · intro hc; exact absurd hc (by norm_num)
      · intro hc; cases hc; omega
    · constructor
      · intro hc; exact absurd hc (by norm_num)
      · intro hc; cases hc; omega
    · have hab : a = b := by omega
      rw [bytesCompare_eq_zero_iff as bs]
      constructor
      · intro hc; rw [hab, hc]
      · intro hc; cases hc; rfl

theorem bytesCompare_swap : ∀ x y : List Nat, bytesCompare y x = -bytesCompare x y
  | [], [] => by simp [bytesCompare]
  | [], _ :: _ => by simp [bytesCompare]
  | _ :: _, [] => by simp [bytesCompare]
  | a :: as, b :: bs => by
    simp only [bytesCompare]
    split_ifs with h1 h2 <;> first
      | omega
      | (exact bytesCompare_swap as bs)

theorem bytesCompare_trans : ∀ x y z : List Nat,
    bytesCompare x y < 0 → bytesCompare y z < 0 → bytesCompare x z < 0
  | [], y, [] => by
    intro _ h2
    exfalso
    cases y <;> simp [bytesCompare] at h2
  | [], _, _ :: _ => by
    intro _ _
    simp [bytesCompare]
  | _ :: _, [], _ => by
    intro h1 _
    simp [bytesCompare] at h1
  | _ :: _, _ :: _, [] => by
    intro _ h2
    simp [bytesCompare] at h2
  | a :: as, b :: bs, c :: cs => by
    simp only [bytesCompare]
    intro h1 h2
    split_ifs at h1 h2 ⊢ <;> first
      | omega
      | (exact bytesCompare_trans as bs cs h1 h2)

/-- `LessThan` unfolded to a proposition. -/
theorem lessThan_iff (a b : Endpoint) :
    a.LessThan b = true ↔
      a.typ < b.typ ∨
        (a.typ = b.typ ∧ bytesCompare (a.raw.take a.len) (b.raw.take b.len) < 0) := by
  simp [Endpoint.LessThan]

/-- C9: `Endpoint.LessThan` is a strict total order: for every two endpoints
exactly one of `a.LessThan b`, `b.LessThan a`, or equality of the type and
the meaningful raw bytes holds, and the relation is transitive. -/
theorem endpoint_lessThan_strict_total_order :
    (∀ a b : Endpoint,
        (a.LessThan b = true ∧ ¬b.LessThan a = true ∧ ¬(a.typ = b.typ ∧ a.Raw = b.Raw)) ∨
          (¬a.LessThan b = true ∧ b.LessThan a = true ∧ ¬(a.typ = b.typ ∧ a.Raw = b.Raw)) ∨
          (¬a.LessThan b = true ∧ ¬b.LessThan a = true ∧ a.typ = b.typ ∧ a.Raw = b.Raw)) ∧
      (∀ a b c : Endpoint, a.LessThan b = true → b.LessThan c = true →
        a.LessThan c = true) := by
  constructor
  · intro a b
    rw [lessThan_iff, lessThan_iff]
    unfold Endpoint.Raw
    have hswap := bytesCompare_swap (a.raw.take a.len) (b.raw.take b.len)
    have hzero := bytesCompare_eq_zero_iff (a.raw.take a.len) (b.raw.take b.len)
    rcases Int.lt_trichotomy a.typ b.typ with ht | ht | ht
    · left
      refine ⟨Or.inl ht, ?_, ?_⟩
      · rintro (h | ⟨h, _⟩) <;> omega
      · rintro ⟨h, _⟩; omega
    · rcases Int.lt_trichotomy (bytesCompare (a.raw.take a.len) (b.raw.take b.len)) 0
        with hc | hc | hc
      · left
        refine ⟨Or.inr ⟨ht, hc⟩, ?_, ?_⟩
        · rintro (h | ⟨_, h⟩) <;> omega
        · rintro ⟨_, h⟩
          rw [← hzero] at h
          omega
      · right; right
        refine ⟨?_, ?_, ht, hzero.mp hc⟩
        · rintro (h | ⟨_, h⟩) <;> omega
        · rintro (h | ⟨_, h⟩) <;> omega
      · right; left
        refine ⟨?_, Or.inr ⟨ht.symm, by omega⟩, ?_⟩
        · rintro (h | ⟨_, h⟩) <;> omega
        · rintro ⟨_, h⟩
          rw [← hzero] at h
          omega
    · right; left
      refine ⟨?_, Or.inl ht, ?_⟩
      · rintro (h | ⟨h, _⟩) <;> omega
      · rintro ⟨h, _⟩; omega
  · intro a b c hab hbc
    rw [lessThan_iff] at hab hbc ⊢
    rcases hab with h1 | ⟨h1, hc1⟩ <;> rcases hbc with h2 | ⟨h2, hc2⟩
    · exact Or.inl (lt_trans h1 h2)
    · exact Or.inl (by omega)
    · exact Or.inl (by omega)
    · exact Or.inr ⟨by omega, by
        have := bytesCompare_trans (a.raw.take a.len) (b.raw.take b.len)
          (c.raw.take c.len) hc1
        exact this hc2⟩

theorem endpoint_lessThan_strict_total_order_witness :
    Endpoint.LessThan ⟨1, 1, padTo16 [1]⟩ ⟨1, 1, padTo16 [3]⟩ = true :=
  endpoint_lessThan_strict_total_order.2
    ⟨1, 1, padTo16 [1]⟩ ⟨1, 1, padTo16 [2]⟩ ⟨1, 1, padTo16 [3]⟩
    (by decide) (by decide)

/-- Little-endian value of a byte list: byte `i` contributes `b * 256 ^ i`. -/
def leVal : List Nat → Nat
  | [] => 0
  | b :: t => b + 256 * leVal t

theorem leVal_lt : ∀ l : List Nat, (∀ b ∈ l, b < 256) → leVal l < 256 ^ l.length
  | [], _ => by simp [leVal]
  | b :: t, h => by
    have ht := leVal_lt t (fun x hx => h x (List.mem_cons_of_mem _ hx))
    have hb := h b (List.mem_cons_self _ _)
    simp only [leVal, List.length_cons, pow_succ]
    omega

theorem leVal_inj : ∀ x y : List Nat, (∀ b ∈ x, b < 256) → (∀ b ∈ y, b < 256) →
    x.length = y.length → leVal x = leVal y → x = y
  | [], [], _, _, _, _ => rfl
  | [], _ :: _, _, _, h, _ => by simp at h
  | _ :: _, [], _, _, h, _ => by simp at h
  | a :: as, b :: bs, hx, hy, hlen, hval => by
    have ha : a < 256 := hx a (List.mem_cons_self _ _)
    have hb : b < 256 := hy b (List.mem_cons_self _ _)
    simp only [leVal] at hval
    have hab : a = b := by omega
    have ht : leVal as = leVal bs := by omega
    have := leVal_inj as bs (fun x hxm => hx x (List.mem_cons_of_mem _ hxm))
      (fun x hxm => hy x (List.mem_cons_of_mem _ hxm)) (by simpa using hlen) ht
    rw [hab, this]

/-- XOR of values with disjoint binary digits is addition: if `x < 2 ^ k`,
then `x ^^^ (y <<< k) = x + y * 2 ^ k`. -/
theorem xor_disjoint_eq_add {x y k : Nat} (hx : x < 2 ^ k) :
    x ^^^ (y <<< k) = x + y * 2 ^ k := by
  apply Nat.eq_of_testBit_eq
  intro j
  have hmul : y <<< k = 2 ^ k * y := by rw [Nat.shiftLeft_eq]; ring
  have hadd : x + y * 2 ^ k = 2 ^ k * y + x := by ring
  rw [Nat.testBit_xor, hmul, hadd, Nat.testBit_mul_pow_two_add y hx j,
    Nat.testBit_mul_pow_two]
  by_cases hj : j < k
  · simp [hj, Nat.not_le.mpr hj]
  · have hxj : x.testBit j = false :=
      Nat.testBit_lt_two_pow
        (lt_of_lt_of_le hx (Nat.pow_le_pow_right (by norm_num) (Nat.not_lt.mp hj)))
    simp [hj, Nat.not_lt.mp hj, hxj]

theorem leVal_take_succ : ∀ (l : List Nat) (n : Nat), n < l.length →
    leVal (l.take (n + 1)) = leVal (l.take n) + l.getD n 0 * 256 ^ n
  | [], n, h => by simp at h
  | b :: t, 0, _ => by simp [leVal]
  | b :: t, n + 1, h => by
    have ih := leVal_take_succ t n (by simpa using h)
    simp only [List.take_succ_cons, leVal, List.getD_cons_succ]
    rw [ih]
    ring

/-- The XOR/shift loop of `Endpoint.FastHash` computes, for up to 8 bytes,
exactly the little-endian value of the hashed prefix. -/
theorem fastHash_loop_eq_leVal (l : List Nat) (hb : ∀ b ∈ l, b < 256) :
    ∀ n, n ≤ 8 → n ≤ l.length →
      (List.range n).foldl (fun h i => h ^^^ (l.getD i 0 <<< (8 * (i % 8)))) 0 =
        leVal (l.take n) := by
  intro n
  induction n with
  | zero => intro _ _; simp [leVal]
  | succ n ih =>
    intro h8 hlen
    rw [List.range_succ, List.foldl_append]
    rw [ih (by omega) (by omega)]
    have hmod : n % 8 = n := Nat.mod_eq_of_lt (by omega)
    have hlt : leVal (l.take n) < 2 ^ (8 * n) := by
      have := leVal_lt (l.take n) (fun x hx => hb x (List.take_subset n l hx))
      rw [List.length_take, min_eq_left (by omega)] at this
      calc leVal (l.take n) < 256 ^ n := this
        _ = 2 ^ (8 * n) := by rw [show (256 : Nat) = 2 ^ 8 by norm_num, ← pow_mul]
    simp only [List.foldl_cons, List.foldl_nil, hmod]
    rw [xor_disjoint_eq_add hlt, leVal_take_succ l n (by omega)]
    congr 1
    rw [show (256 : Nat) = 2 ^ 8 by norm_num, ← pow_mul]

theorem fastHash_eq_leVal (a : Endpoint) (h8 : a.len ≤ 8) (hlen : a.len ≤ a.raw.length)
    (hb : ∀ b ∈ a.raw, b < 256) :
    a.FastHash = leVal a.Raw :=
  fastHash_loop_eq_leVal a.raw hb a.len h8 hlen

/-- C8 (counterexample): the raw addresses `[]` and `[0x00]` are distinct,
both at most 8 bytes long, yet the two endpoints hash identically: the
XOR-fold cannot distinguish a missing byte from a trailing zero byte. -/
theorem endpoint_fastHash_collision_cex :
    Endpoint.FastHash ⟨1, 0, padTo16 []⟩ = Endpoint.FastHash ⟨1, 1, padTo16 [0]⟩ ∧
      Endpoint.Raw ⟨1, 0, padTo16 []⟩ ≠ Endpoint.Raw ⟨1, 1, padTo16 [0]⟩ ∧
      (Endpoint.mk 1 0 (padTo16 [])).len ≤ 8 ∧ (Endpoint.mk 1 1 (padTo16 [0])).len ≤ 8 := by
  decide

/-- C8 (amended): `Endpoint.FastHash` XORs raw byte `i`, shifted left by
`8 * (i % 8)` bits, into a 64-bit accumulator; for raw addresses of EQUAL
length at most 8 bytes it is collision free: two well-formed endpoints with
the same length and distinct raw addresses hash differently.  (Distinct
addresses of different lengths may collide, e.g. `[]` and `[0x00]`.) -/
theorem endpoint_fastHash_collision_free_eq_len (a b : Endpoint)
    (hwa : a.WF) (hwb : b.WF) (ha8 : a.len ≤ 8) (hb8 : b.len ≤ 8)
    (hlen : a.len = b.len) (hraw : a.Raw ≠ b.Raw) :
    a.FastHash ≠ b.FastHash := by
  obtain ⟨hla, hra, hba⟩ := hwa
  obtain ⟨hlb, hrb, hbb⟩ := hwb
  intro h
  apply hraw
  rw [fastHash_eq_leVal a ha8 (by omega) hba, fastHash_eq_leVal b hb8 (by omega) hbb] at h
  refine leVal_inj a.Raw b.Raw (fun x hx => hba x (List.take_subset _ _ hx))
    (fun x hx => hbb x (List.take_subset _ _ hx)) ?_ h
  unfold Endpoint.Raw
  rw [List.length_take, List.length_take]
  omega

theorem endpoint_fastHash_collision_free_eq_len_witness :
    Endpoint.FastHash ⟨1, 1, padTo16 [1]⟩ ≠ Endpoint.FastHash ⟨1, 1, padTo16 [2]⟩ :=
  endpoint_fastHash_collision_free_eq_len ⟨1, 1, padTo16 [1]⟩ ⟨1, 1, padTo16 [2]⟩
    (by decide) (by decide) (by decide) (by decide) (by decide) (by decide)

/-- C1 (evaluation at the failing input): the flow built by
`NewFlow 1 [1] []` (source length 1, destination length 0) hashes to 1,
while its reverse hashes to 0: `Flow.FastHash` iterates using `slen` for
both endpoints, so flows whose two lengths differ break the reverse-collision
guarantee stated in the function's own documentation. -/
theorem flow_fastHash_reverse_mismatch :
    NewFlow 1 [1] [] = ConstructResult.ok ⟨1, 1, 0, padTo16 [1], padTo16 []⟩ ∧
      Flow.FastHash ⟨1, 1, 0, padTo16 [1], padTo16 []⟩ = 1 ∧
      Flow.FastHash (Flow.Reverse ⟨1, 1, 0, padTo16 [1], padTo16 []⟩) = 0 := by
  refine ⟨by decide, ?_, ?_⟩ <;> decide

/-- `ICMPv6Option` from icmp6msg.go.  The Go field `Type` is spelled `type`
here, since `Type` is reserved in Lean; `Length` is the declared length in
bytes (after the `* 8` unit conversion), `Data` the sliced option data. -/
structure ICMPv6Option where
  type : Nat
  Length : Nat
  Data : List Nat
deriving DecidableEq

/-- The two ways a Go slice expression `data[low:high]` can panic. -/
inductive SlicePanic where
  | lowGtHigh
  | outOfBounds
deriving DecidableEq

/-- Go slice expression `data[low:high]`: yields the elements at indexes
`low ≤ i < high`, and panics unless `low ≤ high ≤ len(data)`. -/
def goSlice (data : List Nat) (low high : Nat) : Except SlicePanic (List Nat) :=
  if high ≤ data.length then
    if low ≤ high then .ok ((data.take high).drop low)
    else .error .lowGtHigh
  else .error .outOfBounds

/-- Outcome of `ICMPv6Options.DecodeFromBytes`: success with the decoded
options, a truncation error (`df.SetTruncated()` followed by an error
return) together with the options appended before the error, or a Go
runtime panic. -/
inductive OptDecodeResult where
  | ok (opts : List ICMPv6Option)
  | truncated (opts : List ICMPv6Option)
  | panicked (k : SlicePanic)
deriving DecidableEq

/-- The `for len(data) > 0` loop of `ICMPv6Options.DecodeFromBytes` from
icmp6msg.go, with `acc` the options appended to the receiver so far:

```
for len(data) > 0 {
    if len(data) < 2 { df.SetTruncated(); return error }
    o := ICMPv6Option{ Type: ICMPv6Opt(data[0]), Length: int(data[1]) * 8 }
    if len(data) < int(o.Length) { df.SetTruncated(); return error }
    o.Data = data[2:o.Length]
    data = data[o.Length:]
    *i = append(*i, o)
}
return nil
```
-/
def decodeOptLoop (acc : List ICMPv6Option) (data : List Nat) : OptDecodeResult :=
  if _h1 : data.length = 0 then .ok acc
  else if _h2 : data.length < 2 then .truncated acc
  else if _h3 : data.length < data.getD 1 0 * 8 then .truncated acc
  else
    match _h4 : goSlice data 2 (data.getD 1 0 * 8) with
    | .error k => .panicked k
    | .ok oData =>
      match _h5 : goSlice data (data.getD 1 0 * 8) data.length with
      | .error k => .panicked k
      | .ok rest =>
        decodeOptLoop
          (acc ++ [{ type := data.getD 0 0, Length := data.getD 1 0 * 8, Data := oData }])
          rest
termination_by data.length
decreasing_by
  simp only [goSlice] at _h4 _h5
  split_ifs at _h4 _h5 with ha hb hc
  all_goals simp only [Except.ok.injEq, reduceCtorEq] at _h4 _h5
  subst _h5
  simp only [List.length_drop, List.take_length]
  omega

/-- `ICMPv6Options.DecodeFromBytes` from icmp6msg.go; the callers reset the
receiver (`i.Options = i.Options[:0]`) before calling, so the loop starts
from the empty option list. -/
def ICMPv6Options.DecodeFromBytes (data : List Nat) : OptDecodeResult :=
  decodeOptLoop [] data

/-- C2 (evaluation at the failing input): a two-byte option whose length
byte is zero makes the decoder slice `data[2:0]`, a Go slice-bounds panic
(`low > high`), instead of succeeding or returning a truncation error. -/
theorem icmpv6Options_decode_zero_length_panics :
    ICMPv6Options.DecodeFromBytes [1, 0] = OptDecodeResult.panicked SlicePanic.lowGtHigh := by
  rw [ICMPv6Options.DecodeFromBytes, decodeOptLoop]
  norm_num
  split
  · next k heq =>
    simp [goSlice] at heq
    simp [← heq]
  · next oData heq =>
    simp [goSlice] at heq

/-- The ICMPv6 option decoder never slices with a length that has not passed
the post-conversion validation: the out-of-bounds slice panic is unreachable
for every input and every accumulator. -/
theorem goSlice_error_not_oob {data : List Nat} {low high : Nat} {k : SlicePanic}
    (hh : high ≤ data.length) (h : goSlice data low high = Except.error k) :
    k = SlicePanic.lowGtHigh := by
  unfold goSlice at h
  rw [if_pos hh] at h
  split_ifs at h with hl
  injection h with h'
  exact h'.symm

theorem decodeOptLoop_no_oob (acc : List ICMPv6Option) (data : List Nat) :
    decodeOptLoop acc data ≠ OptDecodeResult.panicked SlicePanic.outOfBounds := by
  induction acc, data using decodeOptLoop.induct with
  | case1 acc data h1 =>
    rw [decodeOptLoop, dif_pos h1]
    simp
  | case2 acc data h1 h2 =>
    rw [decodeOptLoop, dif_neg h1, dif_pos h2]
    simp
  | case3 acc data h1 h2 h3 =>
    rw [decodeOptLoop, dif_neg h1, dif_neg h2, dif_pos h3]
    simp
  | case4 acc data h1 h2 h3 k h4 =>
    have hk : k = SlicePanic.lowGtHigh := goSlice_error_not_oob (by omega) h4
    rw [decodeOptLoop, dif_neg h1, dif_neg h2, dif_neg h3]
    split
    · next k' heq =>
      rw [h4] at heq
      injection heq with heq'
      simp [← heq', hk]
    · next oData heq =>
      rw [h4] at heq
      cases heq
  | case5 acc data h1 h2 h3 oData h4 k h5 =>
    have hk : k = SlicePanic.lowGtHigh := goSlice_error_not_oob (le_refl _) h5
    rw [decodeOptLoop, dif_neg h1, dif_neg h2, dif_neg h3]
    split
    · next k' heq =>
      rw [h4] at heq
      cases heq
    · next oData' heq =>
      rw [h4] at heq
      injection heq with heq'
      subst heq'
      split
      · next k' heq2 =>
        rw [h5] at heq2
        injection heq2 with heq2'
        simp [← heq2', hk]
      · next rest heq2 =>
        rw [h5] at heq2
        cases heq2
  | case6 acc data h1 h2 h3 oData h4 rest h5 ih =>
    rw [decodeOptLoop, dif_neg h1, dif_neg h2, dif_neg h3]
    split
    · next k' heq =>
      rw [h4] at heq
      cases heq
    · next oData' heq =>
      rw [h4] at heq
      injection heq with heq'
      subst heq'
      split
      · next k' heq2 =>
        rw [h5] at heq2
        cases heq2
      · next rest' heq2 =>
        rw [h5] at heq2
        injection heq2 with heq2'
        subst heq2'
        exact ih

/-- C3: the declared length byte is converted to a byte count (times 8) and
then validated against the remaining bytes before any slicing: the decoder
never performs an out-of-bounds slice, and whenever the post-conversion
validation fails it returns a truncation error instead of slicing. -/
theorem icmpv6Options_convert_then_validate (data : List Nat) :
    ICMPv6Options.DecodeFromBytes data ≠ OptDecodeResult.panicked SlicePanic.outOfBounds ∧
      (2 ≤ data.length → data.length < data.getD 1 0 * 8 →
        ICMPv6Options.DecodeFromBytes data = OptDecodeResult.truncated []) := by
  constructor
  · exact decodeOptLoop_no_oob [] data
  · intro hlen hval
    rw [ICMPv6Options.DecodeFromBytes, decodeOptLoop]
    simp only [dif_neg (by omega : ¬data.length = 0), dif_neg (by omega : ¬data.length < 2)]
    rw [dif_pos hval]

theorem icmpv6Options_convert_then_validate_witness :
    ICMPv6Options.DecodeFromBytes [1, 3] = OptDecodeResult.truncated [] ∧
      ICMPv6Options.DecodeFromBytes [1, 3] ≠ OptDecodeResult.panicked SlicePanic.outOfBounds :=
  ⟨(icmpv6Options_convert_then_validate [1, 3]).2 (by decide) (by decide),
   (icmpv6Options_convert_then_validate [1, 3]).1⟩

/-- `ICMPv6RouterAdvertisement` from icmp6msg.go (the `BaseLayer` embedding
carries only raw byte views and is omitted). -/
structure ICMPv6RouterAdvertisement where
  HopLimit : Nat
  Flags : Nat
  RouterLifetime : Nat
  ReachableTime : Nat
  RetransTimer : Nat
  Options : List ICMPv6Option
deriving DecidableEq

/-- `ManagedAddressConfig` from icmp6msg.go: `return i.Flags&0x80 != 1`. -/
def ICMPv6RouterAdvertisement.ManagedAddressConfig (i : ICMPv6RouterAdvertisement) : Bool :=
  i.Flags &&& 0x80 != 1

/-- `OtherConfig` from icmp6msg.go: `return i.Flags&0x40 != 1`. -/
def ICMPv6RouterAdvertisement.OtherConfig (i : ICMPv6RouterAdvertisement) : Bool :=
  i.Flags &&& 0x40 != 1

/-- C10: for every flags byte, `ManagedAddressConfig` and `OtherConfig` both
return `true`: `Flags & 0x80` is either 0 or 128 and `Flags & 0x40` is
either 0 or 64, so neither ever equals 1, making the results independent of
the M and O bits. -/
theorem routerAdvertisement_config_flags_constant_true (ra : ICMPv6RouterAdvertisement)
    (_hf : ra.Flags < 256) :
    ra.ManagedAddressConfig = true ∧ ra.OtherConfig = true := by
  have h80 : ra.Flags &&& 0x80 ≠ 1 := by
    have h := Nat.and_two_pow ra.Flags 7
    norm_num at h
    rw [h]
    cases ra.Flags.testBit 7 <;> simp
  have h40 : ra.Flags &&& 0x40 ≠ 1 := by
    have h := Nat.and_two_pow ra.Flags 6
    norm_num at h
    rw [h]
    cases ra.Flags.testBit 6 <;> simp
  constructor
  · simpa [ICMPv6RouterAdvertisement.ManagedAddressConfig] using h80
  · simpa [ICMPv6RouterAdvertisement.OtherConfig] using h40

theorem routerAdvertisement_config_flags_constant_true_witness :
    (ICMPv6RouterAdvertisement.mk 64 192 0 0 0 []).ManagedAddressConfig = true ∧
      (ICMPv6RouterAdvertisement.mk 64 192 0 0 0 []).OtherConfig = true :=
  routerAdvertisement_config_flags_constant_true
    (ICMPv6RouterAdvertisement.mk 64 192 0 0 0 []) (by decide)

end Gopacket
